import Mathlib

/-!
Verification of the wireguard-server-panel control plane against its
natural-language specification.  The Go sources are shallowly embedded:
pure functions become Lean functions, the SQLite tables become lists held
in explicit state records, and the external `wg` tool is modelled as a
side-effecting executor whose success or failure is injected through an
environment record.  External-tool invocations are collected in a trace so
that claims about "zero invocations" can be stated.
-/

namespace WGPanel

/-! ## IP allocation (Database.GetNextAvailableIP, internal/db/database.go:304-350)

The Go code strips the CIDR suffix, scans the first three octets with
Sscanf, loads every assigned_ip into a set, and walks host octets
2,3,...,254 (for i := 2; i < 255) returning the first candidate string
not present.  We model the scan after the subnet base has been parsed
into its three leading octets; candidate strings are built exactly as
fmt.Sprintf("%d.%d.%d.%d", ...) builds them. -/

/-- Candidate address string, as fmt.Sprintf("%d.%d.%d.%d", o1, o2, o3, i). -/
def mkIP (o1 o2 o3 i : Nat) : String :=
  s!"{o1}.{o2}.{o3}.{i}"

/-- Scan loop of GetNextAvailableIP: starting at host octet `i` with `fuel`
iterations left, return the first candidate not contained in `used`. -/
def scanIP (o1 o2 o3 : Nat) (used : List String) : Nat → Nat → Option String
  | _, 0 => none
  | i, fuel + 1 =>
    if used.contains (mkIP o1 o2 o3 i) then
      scanIP o1 o2 o3 used (i + 1) fuel
    else
      some (mkIP o1 o2 o3 i)

/-- Database.GetNextAvailableIP after subnet parsing: host octets 2..254 are
scanned (the Go loop runs for i := 2; i < 255), host 1 is never considered;
`none` models the "no available IP addresses in subnet" error. -/
def getNextAvailableIP (o1 o2 o3 : Nat) (used : List String) : Option String :=
  scanIP o1 o2 o3 used 2 253

lemma scanIP_some_spec (o1 o2 o3 : Nat) (used : List String) :
    ∀ fuel i s, scanIP o1 o2 o3 used i fuel = some s →
      ∃ k, i ≤ k ∧ k < i + fuel ∧ s = mkIP o1 o2 o3 k ∧
        mkIP o1 o2 o3 k ∉ used ∧
        ∀ j, i ≤ j → j < k → mkIP o1 o2 o3 j ∈ used := by
  intro fuel
  induction fuel with
  | zero => intro i s h; simp [scanIP] at h
  | succ n ih =>
    intro i s h
    rw [scanIP] at h
    by_cases hc : used.contains (mkIP o1 o2 o3 i)
    · rw [if_pos hc] at h
      obtain ⟨k, hk1, hk2, hk3, hk4, hk5⟩ := ih (i + 1) s h
      refine ⟨k, by omega, by omega, hk3, hk4, ?_⟩
      intro j hj1 hj2
      rcases Nat.eq_or_lt_of_le hj1 with hj | hj
      · subst hj; exact List.mem_of_elem_eq_true hc
      · exact hk5 j hj hj2
    · rw [if_neg hc] at h
      refine ⟨i, le_refl i, by omega, (Option.some.injEq _ _).mp h.symm, ?_, ?_⟩
      · intro hmem; exact hc (List.elem_eq_true_of_mem hmem)
      · intro j hj1 hj2; omega

lemma scanIP_none_spec (o1 o2 o3 : Nat) (used : List String) :
    ∀ fuel i, scanIP o1 o2 o3 used i fuel = none ↔
      ∀ j, i ≤ j → j < i + fuel → mkIP o1 o2 o3 j ∈ used := by
  intro fuel
  induction fuel with
  | zero => intro i; simp [scanIP]; omega
  | succ n ih =>
    intro i
    rw [scanIP]
    by_cases hc : used.contains (mkIP o1 o2 o3 i)
    · rw [if_pos hc]
      constructor
      · intro h j hj1 hj2
        rcases Nat.eq_or_lt_of_le hj1 with hj | hj
        · subst hj; exact List.mem_of_elem_eq_true hc
        · exact (ih (i + 1)).mp h j hj (by omega)
      · intro h
        exact (ih (i + 1)).mpr (fun j hj1 hj2 => h j (by omega) (by omega))
    · rw [if_neg hc]
      constructor
      · intro h; simp at h
      · intro h
        exact absurd (List.elem_eq_true_of_mem (h i (le_refl i) (by omega))) hc

/-- The address returned by the allocator is never one already assigned. -/
lemma getNextAvailableIP_not_used (o1 o2 o3 : Nat) (used : List String) (s : String)
    (h : getNextAvailableIP o1 o2 o3 used = some s) : s ∉ used := by
  obtain ⟨k, _, _, hk3, hk4, _⟩ := scanIP_some_spec o1 o2 o3 used 253 2 s h
  rw [hk3]; exact hk4

/-- C2: address allocation returns the lowest host octet in [2, 254] whose
candidate address is not already assigned (host 1 is never allocated), the
returned address never equals an existing assigned address, and the
exhaustion error occurs exactly when every host octet 2..254 is in use. -/
theorem C2_allocate_lowest_free (o1 o2 o3 : Nat) (used : List String) :
    (∀ s, getNextAvailableIP o1 o2 o3 used = some s →
      s ∉ used ∧
      ∃ k, 2 ≤ k ∧ k ≤ 254 ∧ s = mkIP o1 o2 o3 k ∧
        (∀ j, 2 ≤ j → j < k → mkIP o1 o2 o3 j ∈ used)) ∧
    (getNextAvailableIP o1 o2 o3 used = none ↔
      ∀ k, 2 ≤ k → k ≤ 254 → mkIP o1 o2 o3 k ∈ used) := by
  constructor
  · intro s h
    refine ⟨getNextAvailableIP_not_used o1 o2 o3 used s h, ?_⟩
    obtain ⟨k, hk1, hk2, hk3, _, hk5⟩ := scanIP_some_spec o1 o2 o3 used 253 2 s h
    exact ⟨k, hk1, by omega, hk3, hk5⟩
  · rw [getNextAvailableIP, scanIP_none_spec]
    constructor
    · intro h k hk1 hk2; exact h k hk1 (by omega)
    · intro h j hj1 hj2; exact h j hj1 (by omega)

/-! ## Input validation (pkg/wgmanager/wgmanager.go)

ValidateIP matches the pre-compiled regex (\d{1,3}\.){3}\d{1,3} anchored at
both ends and then checks every octet with strconv.Atoi; ValidatePublicKey
base64-decodes the key with the standard alphabet and requires exactly 32
raw bytes. -/

/-- Numeric value of an all-digit character run, as strconv.Atoi computes it
(the regex has already excluded signs, blanks and non-digits). -/
def digitsVal (l : List Char) : Nat :=
  l.foldl (fun a c => a * 10 + (c.toNat - 48)) 0

/-- ValidateIP (wgmanager.go:98-111): four dot-separated runs of one to
three digits, each with numeric value at most 255 (Atoi of a digit run is
never negative, so the lower bound in the Go code is vacuous). -/
def validateIP (ip : String) : Bool :=
  let parts := ip.splitOn "."
  decide (parts.length = 4) &&
  parts.all (fun p =>
    decide (1 ≤ p.data.length) && decide (p.data.length ≤ 3) &&
    p.data.all (fun c => c.isDigit)) &&
  parts.all (fun p => decide (digitsVal p.data ≤ 255))

/-- Value of one standard-base64 alphabet character, `none` outside the
alphabet. -/
def b64StdVal (c : Char) : Option Nat :=
  if 'A' ≤ c ∧ c ≤ 'Z' then some (c.toNat - 65)
  else if 'a' ≤ c ∧ c ≤ 'z' then some (c.toNat - 71)
  else if '0' ≤ c ∧ c ≤ '9' then some (c.toNat + 4)
  else if c = '+' then some 62
  else if c = '/' then some 63
  else none

/-- Standard base64 decoding of four-character groups with trailing `=`
padding, as encoding/base64 StdEncoding.DecodeString accepts it. -/
def b64StdDecode : List Char → Option (List Nat)
  | [] => some []
  | [c1, c2, '=', '='] =>
    match b64StdVal c1, b64StdVal c2 with
    | some v1, some v2 => some [v1 * 4 + v2 / 16]
    | _, _ => none
  | [c1, c2, c3, '='] =>
    match b64StdVal c1, b64StdVal c2, b64StdVal c3 with
    | some v1, some v2, some v3 =>
      some [v1 * 4 + v2 / 16, (v2 % 16) * 16 + v3 / 4]
    | _, _, _ => none
  | c1 :: c2 :: c3 :: c4 :: rest =>
    match b64StdVal c1, b64StdVal c2, b64StdVal c3, b64StdVal c4, b64StdDecode rest with
    | some v1, some v2, some v3, some v4, some bs =>
      some ([v1 * 4 + v2 / 16, (v2 % 16) * 16 + v3 / 4, (v3 % 4) * 64 + v4] ++ bs)
    | _, _, _, _, _ => none
  | _ => none

/-- ValidatePublicKey (wgmanager.go:89-95): the key must base64-decode to
exactly 32 raw bytes. -/
def validatePublicKey (key : String) : Bool :=
  match b64StdDecode key.data with
  | some bs => decide (bs.length = 32)
  | none => false

/-! ## Data model and live-interface executor

Peer mirrors the peers table (internal/models, database.go migration);
timestamps are omitted as no claim mentions them.  SysState couples the
registry (peer rows) with the live interface peer set.  WGEnv injects the
success or failure of each external command; WGResult carries the
interface state, the Go error outcome, and the add/remove tool calls made. -/

structure Peer where
  id : Nat
  name : String
  publicKey : String
  privateKey : String
  assignedIP : String
  enabled : Bool
deriving DecidableEq, Repr

structure SysState where
  peers : List Peer
  iface : List String
deriving DecidableEq, Repr

inductive ExtCall where
  | addPeer (publicKey assignedIP : String)
  | removePeer (publicKey : String)
deriving DecidableEq, Repr

structure WGEnv where
  addCmdOk : Bool
  addSaveOk : Bool
  removeCmdOk : Bool
  removeSaveOk : Bool
deriving DecidableEq, Repr

structure WGResult where
  iface : List String
  ok : Bool
  calls : List ExtCall
deriving DecidableEq, Repr

/-- WGManager.AddPeer (wgmanager.go:116-145): validate both inputs before
any tool call, run `wg set ... peer ... allowed-ips ...` (idempotent set
insert into the live peer table), then `wg-quick save`; an error from
either external step fails the operation. -/
def wgAddPeer (env : WGEnv) (iface : List String) (publicKey assignedIP : String) : WGResult :=
  if validatePublicKey publicKey = false then ⟨iface, false, []⟩
  else if validateIP assignedIP = false then ⟨iface, false, []⟩
  else if env.addCmdOk = false then ⟨iface, false, [.addPeer publicKey assignedIP]⟩
  else
    let iface1 := if iface.contains publicKey then iface else publicKey :: iface
    if env.addSaveOk = false then ⟨iface1, false, [.addPeer publicKey assignedIP]⟩
    else ⟨iface1, true, [.addPeer publicKey assignedIP]⟩

/-- WGManager.RemovePeer (wgmanager.go:148-174): validate the key, run
`wg set ... peer ... remove`, then `wg-quick save`. -/
def wgRemovePeer (env : WGEnv) (iface : List String) (publicKey : String) : WGResult :=
  if validatePublicKey publicKey = false then ⟨iface, false, []⟩
  else if env.removeCmdOk = false then ⟨iface, false, [.removePeer publicKey]⟩
  else
    let iface1 := iface.filter (fun k => !(k == publicKey))
    if env.removeSaveOk = false then ⟨iface1, false, [.removePeer publicKey]⟩
    else ⟨iface1, true, [.removePeer publicKey]⟩

/-! ## Registry operations (internal/db/database.go) -/

/-- Database.GetPeerByIP: single-row lookup by assigned_ip. -/
def getPeerByIP (peers : List Peer) (ip : String) : Option Peer :=
  peers.find? (fun p => p.assignedIP == ip)

/-- Database.DeletePeer (database.go:286-302): delete by assigned_ip;
zero rows affected is reported as sql.ErrNoRows, modelled as `none`. -/
def dbDeletePeer (peers : List Peer) (ip : String) : Option (List Peer) :=
  if peers.any (fun p => p.assignedIP == ip) then
    some (peers.filter (fun p => !(p.assignedIP == ip)))
  else none

/-- AUTOINCREMENT id for a fresh row. -/
def nextPeerId (peers : List Peer) : Nat :=
  (peers.map (fun p => p.id)).foldl max 0 + 1

/-- Database.CreatePeer (database.go:208-223): INSERT subject to the UNIQUE
constraints on public_key and assigned_ip; `none` models the constraint
violation error. -/
def dbCreatePeer (peers : List Peer) (p : Peer) : Option (List Peer) :=
  if peers.any (fun q => q.publicKey == p.publicKey || q.assignedIP == p.assignedIP) then none
  else some (peers ++ [p])

/-- Database.UpdatePeer (database.go:249-263): optional name UPDATE then
optional enabled UPDATE, both keyed by assigned_ip. -/
def dbUpdatePeer (peers : List Peer) (ip : String) (name : Option String)
    (enabled : Option Bool) : List Peer :=
  let peers1 := match name with
    | some n => peers.map (fun p => if p.assignedIP == ip then { p with name := n } else p)
    | none => peers
  match enabled with
  | some b => peers1.map (fun p => if p.assignedIP == ip then { p with enabled := b } else p)
  | none => peers1

/-! ## Peer handlers (internal/handlers/peers.go) -/

inductive CreateResult where
  | keygenFailed
  | ipFailed
  | dbFailed
  | provisioningFailed
  | created (p : Peer)
deriving DecidableEq, Repr

structure CreateEnv where
  keygenOk : Bool
  dbInsertOk : Bool
  rollbackOk : Bool
  wg : WGEnv
deriving DecidableEq, Repr

/-- PeerHandler.CreatePeer (peers.go:27-92): generate a key pair, allocate
the next address, INSERT the registry row, then add the peer to the live
interface; on live-interface failure the handler deletes the just-inserted
row (ignoring the delete's own error) and reports the provisioning
failure.  `dbInsertOk` and `rollbackOk` inject environmental SQLite
failures of the INSERT and of the compensating DELETE. -/
def createPeer (st : SysState) (o1 o2 o3 : Nat) (name publicKey privateKey : String)
    (env : CreateEnv) : SysState × CreateResult × List ExtCall :=
  if env.keygenOk = false then (st, .keygenFailed, [])
  else
    match getNextAvailableIP o1 o2 o3 (st.peers.map (fun p => p.assignedIP)) with
    | none => (st, .ipFailed, [])
    | some ip =>
      let newPeer : Peer :=
        { id := nextPeerId st.peers, name := name, publicKey := publicKey,
          privateKey := privateKey, assignedIP := ip, enabled := true }
      if env.dbInsertOk = false then (st, .dbFailed, [])
      else
        match dbCreatePeer st.peers newPeer with
        | none => (st, .dbFailed, [])
        | some peers1 =>
          let r := wgAddPeer env.wg st.iface publicKey ip
          if r.ok then ({ peers := peers1, iface := r.iface }, .created newPeer, r.calls)
          else if env.rollbackOk = false then
            ({ peers := peers1, iface := r.iface }, .provisioningFailed, r.calls)
          else
            match dbDeletePeer peers1 ip with
            | some peers2 => ({ peers := peers2, iface := r.iface }, .provisioningFailed, r.calls)
            | none => ({ peers := peers1, iface := r.iface }, .provisioningFailed, r.calls)

inductive DeleteResult where
  | badRequest
  | notFound
  | wgFailed
  | dbFailed
  | deleted
deriving DecidableEq, Repr

/-- PeerHandler.DeletePeer (peers.go:219-255): validate the address, look
the peer up (404 on miss, before any interface call), remove it from the
live interface first, and only on success delete the registry row. -/
def deletePeerH (st : SysState) (ip : String) (env : WGEnv) :
    SysState × DeleteResult × List ExtCall :=
  if validateIP ip = false then (st, .badRequest, [])
  else
    match getPeerByIP st.peers ip with
    | none => (st, .notFound, [])
    | some peer =>
      let r := wgRemovePeer env st.iface peer.publicKey
      if r.ok = false then ({ st with iface := r.iface }, .wgFailed, r.calls)
      else
        match dbDeletePeer st.peers ip with
        | none => ({ st with iface := r.iface }, .dbFailed, r.calls)
        | some peers2 => ({ peers := peers2, iface := r.iface }, .deleted, r.calls)

structure UpdateReq where
  name : Option String
  enabled : Option Bool
deriving DecidableEq, Repr

inductive UpdateResult where
  | badRequest
  | notFound
  | wgFailed
  | dbFailed
  | updated (p : Peer)
deriving DecidableEq, Repr

/-- Registry phase shared by every UpdatePeer path: apply the UPDATEs and
re-read the row for the response. -/
def updateDBPhase (st : SysState) (ip : String) (req : UpdateReq) (calls : List ExtCall) :
    SysState × UpdateResult × List ExtCall :=
  let peers1 := dbUpdatePeer st.peers ip req.name req.enabled
  match getPeerByIP peers1 ip with
  | some p => ({ st with peers := peers1 }, .updated p, calls)
  | none => ({ st with peers := peers1 }, .dbFailed, calls)

/-- PeerHandler.UpdatePeer (peers.go:150-216): validate the address, load
the current row, issue a live add only when enabling a disabled peer and a
live remove only when disabling an enabled peer (no tool call otherwise),
aborting before any registry write if the live step fails; then write the
registry. -/
def updatePeerH (st : SysState) (ip : String) (req : UpdateReq) (env : WGEnv) :
    SysState × UpdateResult × List ExtCall :=
  if validateIP ip = false then (st, .badRequest, [])
  else
    match getPeerByIP st.peers ip with
    | none => (st, .notFound, [])
    | some peer =>
      match req.enabled with
      | some true =>
        if peer.enabled = false then
          let r := wgAddPeer env st.iface peer.publicKey peer.assignedIP
          if r.ok = false then ({ st with iface := r.iface }, .wgFailed, r.calls)
          else updateDBPhase { st with iface := r.iface } ip req r.calls
        else updateDBPhase st ip req []
      | some false =>
        if peer.enabled = true then
          let r := wgRemovePeer env st.iface peer.publicKey
          if r.ok = false then ({ st with iface := r.iface }, .wgFailed, r.calls)
          else updateDBPhase { st with iface := r.iface } ip req r.calls
        else updateDBPhase st ip req []
      | none => updateDBPhase st ip req []

/-! ## Helper lemmas about the embedded operations -/

lemma dbCreatePeer_eq (peers out : List Peer) (p : Peer)
    (h : dbCreatePeer peers p = some out) :
    out = peers ++ [p] ∧
    peers.any (fun q => q.publicKey == p.publicKey || q.assignedIP == p.assignedIP) = false := by
  unfold dbCreatePeer at h
  split at h
  · cases h
  · rename_i hc
    exact ⟨((Option.some.injEq _ _).mp h).symm, Bool.not_eq_true _ ▸ Bool.of_not_eq_true hc⟩

lemma dbCreatePeer_no_ip_clash (peers out : List Peer) (p : Peer)
    (h : dbCreatePeer peers p = some out) :
    ∀ q ∈ peers, q.assignedIP ≠ p.assignedIP := by
  intro q hq hmem
  have hany := (dbCreatePeer_eq peers out p h).2
  rw [List.any_eq_false] at hany
  have := hany q hq
  simp [hmem] at this

lemma dbDeletePeer_append (peers : List Peer) (p : Peer)
    (h : ∀ q ∈ peers, q.assignedIP ≠ p.assignedIP) :
    dbDeletePeer (peers ++ [p]) p.assignedIP = some peers := by
  unfold dbDeletePeer
  have hany : (peers ++ [p]).any (fun q => q.assignedIP == p.assignedIP) = true := by
    simp
  rw [if_pos hany]
  have h1 : peers.filter (fun q => !(q.assignedIP == p.assignedIP)) = peers :=
    List.filter_eq_self.mpr (by intro q hq; simpa using h q hq)
  rw [List.filter_append, h1]
  simp

lemma wgAddPeer_ok_mem (env : WGEnv) (iface : List String) (pub ip : String)
    (h : (wgAddPeer env iface pub ip).ok = true) :
    pub ∈ (wgAddPeer env iface pub ip).iface := by
  unfold wgAddPeer at h ⊢
  rcases hv1 : validatePublicKey pub with _ | _
  · simp [hv1] at h
  · rcases hv2 : validateIP ip with _ | _
    · simp [hv1, hv2] at h
    · rcases ha : env.addCmdOk with _ | _
      · simp [hv1, hv2, ha] at h
      · rcases hs : env.addSaveOk with _ | _
        · simp [hv1, hv2, ha, hs] at h
        · by_cases hc : pub ∈ iface <;> simp [hv1, hv2, ha, hs, hc]

lemma updateDBPhase_calls (st : SysState) (ip : String) (req : UpdateReq)
    (calls : List ExtCall) : (updateDBPhase st ip req calls).2.2 = calls := by
  rcases h : getPeerByIP (dbUpdatePeer st.peers ip req.name req.enabled) ip with _ | p <;>
    simp [updateDBPhase, h]

/-! ## C1: create is atomic with rollback -/

/-- C1: a successful create response reports a peer that is both recorded
in the registry and present in the live interface; on any create failure
the registry holds no new row provided the compensating delete itself does
not environmentally fail; and on the specific path where the INSERT
succeeded but the live-interface add failed, the just-inserted row is
deleted again and the operation reports the provisioning failure. -/
theorem C1_create_atomic_rollback (st : SysState) (o1 o2 o3 : Nat)
    (name publicKey privateKey : String) (env : CreateEnv) :
    (∀ p, (createPeer st o1 o2 o3 name publicKey privateKey env).2.1 = .created p →
      p ∈ (createPeer st o1 o2 o3 name publicKey privateKey env).1.peers ∧
      p.publicKey ∈ (createPeer st o1 o2 o3 name publicKey privateKey env).1.iface) ∧
    ((∀ p, (createPeer st o1 o2 o3 name publicKey privateKey env).2.1 ≠ .created p) →
      env.rollbackOk = true →
      (createPeer st o1 o2 o3 name publicKey privateKey env).1.peers = st.peers) ∧
    (∀ ip, getNextAvailableIP o1 o2 o3 (st.peers.map (fun p => p.assignedIP)) = some ip →
      env.keygenOk = true → env.dbInsertOk = true →
      st.peers.any (fun q => q.publicKey == publicKey) = false →
      (wgAddPeer env.wg st.iface publicKey ip).ok = false →
      env.rollbackOk = true →
      (createPeer st o1 o2 o3 name publicKey privateKey env).1.peers = st.peers ∧
      (createPeer st o1 o2 o3 name publicKey privateKey env).2.1 = .provisioningFailed) := by
  refine ⟨?_, ?_, ?_⟩
  · intro p hp
    rcases hk : env.keygenOk with _ | _
    · simp [createPeer, hk] at hp
    · rcases hip : getNextAvailableIP o1 o2 o3 (st.peers.map (fun p => p.assignedIP)) with _ | ip
      · simp [createPeer, hk, hip] at hp
      · rcases hd : env.dbInsertOk with _ | _
        · simp [createPeer, hk, hip, hd] at hp
        · rcases hins : dbCreatePeer st.peers
              ⟨nextPeerId st.peers, name, publicKey, privateKey, ip, true⟩ with _ | peers1
          · simp [createPeer, hk, hip, hd, hins] at hp
          · rcases hok : (wgAddPeer env.wg st.iface publicKey ip).ok with _ | _
            · rcases hrb : env.rollbackOk with _ | _
              · simp [createPeer, hk, hip, hd, hins, hok, hrb] at hp
              · rcases hdel : dbDeletePeer peers1 ip with _ | peers2 <;>
                  simp [createPeer, hk, hip, hd, hins, hok, hrb, hdel] at hp
            · have hEq : createPeer st o1 o2 o3 name publicKey privateKey env =
                  ({ peers := peers1, iface := (wgAddPeer env.wg st.iface publicKey ip).iface },
                   .created ⟨nextPeerId st.peers, name, publicKey, privateKey, ip, true⟩,
                   (wgAddPeer env.wg st.iface publicKey ip).calls) := by
                simp [createPeer, hk, hip, hd, hins, hok]
              rw [hEq] at hp ⊢
              have hp2 : ⟨nextPeerId st.peers, name, publicKey, privateKey, ip, true⟩ = p :=
                CreateResult.created.inj hp
              subst hp2
              have hpe := (dbCreatePeer_eq _ _ _ hins).1
              subst hpe
              exact ⟨by simp, wgAddPeer_ok_mem env.wg st.iface publicKey ip hok⟩
  · intro hnp hrb
    rcases hk : env.keygenOk with _ | _
    · simp [createPeer, hk]
    · rcases hip : getNextAvailableIP o1 o2 o3 (st.peers.map (fun p => p.assignedIP)) with _ | ip
      · simp [createPeer, hk, hip]
      · rcases hd : env.dbInsertOk with _ | _
        · simp [createPeer, hk, hip, hd]
        · rcases hins : dbCreatePeer st.peers
              ⟨nextPeerId st.peers, name, publicKey, privateKey, ip, true⟩ with _ | peers1
          · simp [createPeer, hk, hip, hd, hins]
          · rcases hok : (wgAddPeer env.wg st.iface publicKey ip).ok with _ | _
            · have hpe := (dbCreatePeer_eq _ _ _ hins).1
              have hnew := dbCreatePeer_no_ip_clash _ _ _ hins
              have hdel : dbDeletePeer peers1 ip = some st.peers := by
                rw [hpe]
                exact dbDeletePeer_append st.peers
                  ⟨nextPeerId st.peers, name, publicKey, privateKey, ip, true⟩ hnew
              simp [createPeer, hk, hip, hd, hins, hok, hrb, hdel]
            · exfalso
              exact hnp ⟨nextPeerId st.peers, name, publicKey, privateKey, ip, true⟩
                (by simp [createPeer, hk, hip, hd, hins, hok])
  · intro ip hip hk hd hpub hok hrb
    have hins : dbCreatePeer st.peers
        ⟨nextPeerId st.peers, name, publicKey, privateKey, ip, true⟩ =
        some (st.peers ++ [⟨nextPeerId st.peers, name, publicKey, privateKey, ip, true⟩]) := by
      unfold dbCreatePeer
      rw [if_neg]
      intro hany
      rw [List.any_eq_true] at hany
      obtain ⟨q, hq, hq2⟩ := hany
      rcases Bool.or_eq_true_iff.mp hq2 with h1 | h2
      · rw [List.any_eq_false] at hpub
        exact absurd h1 (by simpa using hpub q hq)
      · have := getNextAvailableIP_not_used o1 o2 o3 (st.peers.map (fun p => p.assignedIP)) ip hip
        exact this (List.mem_map.mpr ⟨q, hq, by simpa using h2⟩)
    have hnew : ∀ q ∈ st.peers, q.assignedIP ≠ ip := by
      intro q hq hmem
      have := getNextAvailableIP_not_used o1 o2 o3 (st.peers.map (fun p => p.assignedIP)) ip hip
      exact this (List.mem_map.mpr ⟨q, hq, hmem⟩)
    have hdel : dbDeletePeer
        (st.peers ++ [⟨nextPeerId st.peers, name, publicKey, privateKey, ip, true⟩]) ip =
        some st.peers :=
      dbDeletePeer_append st.peers ⟨nextPeerId st.peers, name, publicKey, privateKey, ip, true⟩ hnew
    constructor
    · simp [createPeer, hk, hip, hd, hins, hok, hrb, hdel]
    · simp [createPeer, hk, hip, hd, hins, hok, hrb, hdel]

/-! ## C3: delete removes from the live interface first -/

/-- C3: deletion by assigned address performs the live-interface removal
before the registry delete: a missing registry row yields NotFound with
zero live-interface invocations and no state change; a failed live removal
aborts the operation with the registry retained unchanged; and a completed
deletion implies the live removal succeeded first. -/
theorem C3_delete_live_first (st : SysState) (ip : String) (env : WGEnv) :
    (validateIP ip = true → getPeerByIP st.peers ip = none →
      (deletePeerH st ip env).2.1 = .notFound ∧ (deletePeerH st ip env).2.2 = [] ∧
      (deletePeerH st ip env).1 = st) ∧
    (∀ peer, getPeerByIP st.peers ip = some peer →
      (wgRemovePeer env st.iface peer.publicKey).ok = false →
      (deletePeerH st ip env).1.peers = st.peers ∧ (deletePeerH st ip env).2.1 ≠ .deleted) ∧
    ((deletePeerH st ip env).2.1 = .deleted →
      ∃ peer, getPeerByIP st.peers ip = some peer ∧
        (wgRemovePeer env st.iface peer.publicKey).ok = true) := by
  refine ⟨?_, ?_, ?_⟩
  · intro hv hnone
    simp [deletePeerH, hv, hnone]
  · intro peer hfind hok
    rcases hv : validateIP ip with _ | _
    · simp [deletePeerH, hv]
    · simp [deletePeerH, hv, hfind, hok]
  · intro hdel
    rcases hv : validateIP ip with _ | _
    · simp [deletePeerH, hv] at hdel
    · rcases hfind : getPeerByIP st.peers ip with _ | peer
      · simp [deletePeerH, hv, hfind] at hdel
      · rcases hok : (wgRemovePeer env st.iface peer.publicKey).ok with _ | _
        · simp [deletePeerH, hv, hfind, hok] at hdel
        · exact ⟨peer, rfl, hok⟩

/-! ## C4: enable/disable toggling is idempotent towards the external tool -/

/-- C4: an update whose requested enabled flag equals the persisted flag
performs zero external add/remove invocations, as does an update carrying
no enabled flag, and an external add/remove invocation occurs only when
the requested flag differs from the persisted flag. -/
theorem C4_toggle_idempotent (st : SysState) (ip : String) (req : UpdateReq) (env : WGEnv) :
    (∀ peer b, getPeerByIP st.peers ip = some peer → req.enabled = some b →
      peer.enabled = b → (updatePeerH st ip req env).2.2 = []) ∧
    (req.enabled = none → (updatePeerH st ip req env).2.2 = []) ∧
    ((updatePeerH st ip req env).2.2 ≠ [] →
      ∃ peer b, getPeerByIP st.peers ip = some peer ∧ req.enabled = some b ∧
        peer.enabled ≠ b) := by
  refine ⟨?_, ?_, ?_⟩
  · intro peer b hfind henb hpe
    rcases hv : validateIP ip with _ | _
    · simp [updatePeerH, hv]
    · rcases b with _ | _
      · simp [updatePeerH, hv, hfind, henb, hpe, updateDBPhase_calls]
      · simp [updatePeerH, hv, hfind, henb, hpe, updateDBPhase_calls]
  · intro henb
    rcases hv : validateIP ip with _ | _
    · simp [updatePeerH, hv]
    · rcases hfind : getPeerByIP st.peers ip with _ | peer
      · simp [updatePeerH, hv, hfind]
      · simp [updatePeerH, hv, hfind, henb, updateDBPhase_calls]
  · intro hcalls
    rcases hv : validateIP ip with _ | _
    · simp [updatePeerH, hv] at hcalls
    · rcases hfind : getPeerByIP st.peers ip with _ | peer
      · simp [updatePeerH, hv, hfind] at hcalls
      · rcases henb : req.enabled with _ | b
        · simp [updatePeerH, hv, hfind, henb, updateDBPhase_calls] at hcalls
        · rcases b with _ | _
          · rcases hpe : peer.enabled with _ | _
            · simp [updatePeerH, hv, hfind, henb, hpe, updateDBPhase_calls] at hcalls
            · exact ⟨peer, false, rfl, rfl, by simp [hpe]⟩
          · rcases hpe : peer.enabled with _ | _
            · exact ⟨peer, true, rfl, rfl, by simp [hpe]⟩
            · simp [updatePeerH, hv, hfind, henb, hpe, updateDBPhase_calls] at hcalls

/-! ## Access gate (middleware.AuthMiddleware, Database.GetUserByAPIToken)

The middleware extracts the bearer value from the Authorization header
(strings.SplitN on the first space, case-insensitive scheme), tries the
signed access token first, and falls back to the API-credential lookup
only when signature validation failed and the bearer value is exactly 43
bytes long.  JWT signature checking is cryptographic and outside the
repository, so it is abstracted as the function argument `validateJwt`;
the attempts made are collected in a trace. -/

structure AuthUser where
  id : Nat
  username : String
  passwordHash : String
  apiToken : String
deriving DecidableEq, Repr

/-- Database.GetUserByAPIToken (database.go:165-179): empty lookups are
rejected up front, and the row query demands api_token = token AND
api_token != ''. -/
def getUserByAPIToken (users : List AuthUser) (token : String) : Option AuthUser :=
  if token = "" then none
  else users.find? (fun u => u.apiToken == token && !(u.apiToken == ""))

/-- Byte length of a string, as Go len() computes it on a UTF-8 string. -/
def byteLen (s : String) : Nat :=
  s.data.foldl (fun n c => n + c.utf8Size) 0

/-- Split at the first space, as strings.SplitN(s, " ", 2): `none` when the
string contains no space (SplitN then yields a single part). -/
def splitFirstSpace : List Char → Option (List Char × List Char)
  | [] => none
  | c :: rest =>
    if c = ' ' then some ([], rest)
    else
      match splitFirstSpace rest with
      | some (a, b) => some (c :: a, b)
      | none => none

/-- Bearer extraction of AuthMiddleware (part_009:28-35): two space-split
parts whose first part lowercases to "bearer". -/
def parseBearer (header : String) : Option String :=
  match splitFirstSpace header.data with
  | none => none
  | some (scheme, rest) =>
    if String.mk (scheme.map Char.toLower) = "bearer" then some (String.mk rest) else none

structure JwtClaims where
  userId : Nat
  username : String
deriving DecidableEq, Repr

inductive AuthAttempt where
  | jwt
  | apiLookup
deriving DecidableEq, Repr

inductive AuthOutcome where
  | noHeader
  | badFormat
  | emptyToken
  | allowJwt (userId : Nat) (username : String)
  | allowApi (userId : Nat) (username : String)
  | invalidOrExpired
deriving DecidableEq, Repr

/-- middleware.AuthMiddleware (part_009:18-70): reject a missing header, a
non-bearer format and an empty token; validate as JWT first; if that
fails and the token is exactly 43 bytes, look it up as an API credential;
collapse both failures into one generic response. -/
def authMiddleware (validateJwt : String → Option JwtClaims) (users : List AuthUser)
    (header : String) : AuthOutcome × List AuthAttempt :=
  if header = "" then (.noHeader, [])
  else
    match parseBearer header with
    | none => (.badFormat, [])
    | some token =>
      if token = "" then (.emptyToken, [])
      else
        match validateJwt token with
        | some cl => (.allowJwt cl.userId cl.username, [.jwt])
        | none =>
          if byteLen token = 43 then
            match getUserByAPIToken users token with
            | some u => (.allowApi u.id u.username, [.jwt, .apiLookup])
            | none => (.invalidOrExpired, [.jwt, .apiLookup])
          else (.invalidOrExpired, [.jwt])

/-- C5: on every request presenting a bearer value, signed-token validation
is attempted first, the API-credential lookup happens exactly when the
signature validation failed and the bearer value is 43 bytes long, and
both failure paths produce the single generic invalid-or-expired
response. -/
theorem C5_gate_order_and_fallback (validateJwt : String → Option JwtClaims)
    (users : List AuthUser) (header token : String)
    (hparse : parseBearer header = some token) (hne : token ≠ "") :
    (authMiddleware validateJwt users header).2.head? = some .jwt ∧
    (AuthAttempt.apiLookup ∈ (authMiddleware validateJwt users header).2 ↔
      validateJwt token = none ∧ byteLen token = 43) ∧
    (validateJwt token = none →
      byteLen token ≠ 43 ∨ getUserByAPIToken users token = none →
      (authMiddleware validateJwt users header).1 = .invalidOrExpired) := by
  have hh : ¬ header = "" := by
    intro h
    subst h
    simp [parseBearer, splitFirstSpace] at hparse
  rcases hjwt : validateJwt token with _ | cl
  · by_cases hl : byteLen token = 43
    · rcases hapi : getUserByAPIToken users token with _ | u
      · refine ⟨?_, ?_, ?_⟩ <;>
          simp [authMiddleware, hh, hparse, hne, hjwt, hl, hapi]
      · refine ⟨?_, ?_, ?_⟩ <;>
          simp [authMiddleware, hh, hparse, hne, hjwt, hl, hapi]
    · refine ⟨?_, ?_, ?_⟩ <;>
        simp [authMiddleware, hh, hparse, hne, hjwt, hl]
  · refine ⟨?_, ?_, ?_⟩ <;>
      simp [authMiddleware, hh, hparse, hne, hjwt]

/-- C5 witness: a 43-character bearer value on which signature validation
fails exercises the fallback path. -/
theorem C5_gate_order_and_fallback_witness :
    parseBearer "Bearer 0000000000000000000000000000000000000000000" =
      some "0000000000000000000000000000000000000000000" ∧
    "0000000000000000000000000000000000000000000" ≠ "" ∧
    ((authMiddleware (fun _ => none) []
        "Bearer 0000000000000000000000000000000000000000000").2.head? = some .jwt ∧
      (AuthAttempt.apiLookup ∈ (authMiddleware (fun _ => none) []
        "Bearer 0000000000000000000000000000000000000000000").2 ↔
        (fun (_ : String) => (none : Option JwtClaims))
            "0000000000000000000000000000000000000000000" = none ∧
        byteLen "0000000000000000000000000000000000000000000" = 43) ∧
      ((fun (_ : String) => (none : Option JwtClaims))
          "0000000000000000000000000000000000000000000" = none →
        byteLen "0000000000000000000000000000000000000000000" ≠ 43 ∨
          getUserByAPIToken [] "0000000000000000000000000000000000000000000" = none →
        (authMiddleware (fun _ => none) []
          "Bearer 0000000000000000000000000000000000000000000").1 = .invalidOrExpired)) :=
  ⟨by decide, by decide,
    C5_gate_order_and_fallback (fun _ => none) []
      "Bearer 0000000000000000000000000000000000000000000"
      "0000000000000000000000000000000000000000000" (by decide) (by decide)⟩

/-- C10: the API-credential lookup fails on an empty presented value, only
ever returns a user whose stored credential is non-empty and equal to the
presented value, and consequently when every stored credential is empty
(no one has logged in) no bearer value authenticates through the
API-credential path. -/
lemma getUserByAPIToken_some (users : List AuthUser) (t : String) (u : AuthUser)
    (h : getUserByAPIToken users t = some u) :
    u ∈ users ∧ u.apiToken = t ∧ u.apiToken ≠ "" := by
  unfold getUserByAPIToken at h
  split at h
  · cases h
  · have hmem := List.mem_of_find?_eq_some h
    have hp := List.find?_some h
    rw [Bool.and_eq_true] at hp
    refine ⟨hmem, by simpa using hp.1, ?_⟩
    have h2 := hp.2
    simp only [Bool.not_eq_true'] at h2
    simpa using h2

theorem C10_no_empty_credential_auth (validateJwt : String → Option JwtClaims)
    (users : List AuthUser) (t : String) :
    getUserByAPIToken users "" = none ∧
    (∀ u, getUserByAPIToken users t = some u → u.apiToken = t ∧ u.apiToken ≠ "") ∧
    ((∀ u ∈ users, u.apiToken = "") → ∀ header uid uname,
      (authMiddleware validateJwt users header).1 ≠ .allowApi uid uname) := by
  refine ⟨by rfl, ?_, ?_⟩
  · intro u hu
    exact (getUserByAPIToken_some users t u hu).2
  · intro hall header uid uname hapi
    by_cases hh : header = ""
    · simp [authMiddleware, hh] at hapi
    · rcases hp : parseBearer header with _ | token
      · simp [authMiddleware, hh, hp] at hapi
      · by_cases ht : token = ""
        · simp [authMiddleware, hh, hp, ht] at hapi
        · rcases hj : validateJwt token with _ | cl
          · by_cases hl : byteLen token = 43
            · rcases hu : getUserByAPIToken users token with _ | u
              · simp [authMiddleware, hh, hp, ht, hj, hl, hu] at hapi
              · obtain ⟨hmem, _, hne2⟩ := getUserByAPIToken_some users token u hu
                exact hne2 (hall u hmem)
            · simp [authMiddleware, hh, hp, ht, hj, hl] at hapi
          · simp [authMiddleware, hh, hp, ht, hj] at hapi

/-! ## Refresh-token rotation (AuthHandler.Refresh, part_008:111-198)

The refresh_tokens table becomes a list; its UNIQUE(token) constraint
makes the INSERT of a colliding token fail.  JWT signing and the random
generation of the replacement token are environmental and are injected
through RefreshEnv (the fresh random value as `newTok`). -/

structure RToken where
  userId : Nat
  token : String
  expiresAt : Int
deriving DecidableEq, Repr

structure AuthState where
  users : List AuthUser
  tokens : List RToken
deriving DecidableEq, Repr

/-- Database.GetRefreshToken: single-row lookup by token. -/
def dbGetRefreshToken (tokens : List RToken) (tok : String) : Option RToken :=
  tokens.find? (fun rt => rt.token == tok)

/-- Database.DeleteRefreshToken: DELETE by token value. -/
def dbDeleteRefreshToken (tokens : List RToken) (tok : String) : List RToken :=
  tokens.filter (fun rt => !(rt.token == tok))

/-- Database.SaveRefreshToken: INSERT subject to UNIQUE(token); `none`
models the constraint-violation error. -/
def dbSaveRefreshToken (tokens : List RToken) (userId : Nat) (tok : String)
    (expiry : Int) : Option (List RToken) :=
  if tokens.any (fun rt => rt.token == tok) then none
  else some (tokens ++ [⟨userId, tok, expiry⟩])

structure RefreshEnv where
  signOk : Bool
  randOk : Bool
  newTok : String
  newExpiry : Int
deriving DecidableEq, Repr

inductive RefreshResult where
  | noCookie
  | invalidToken
  | expiredToken
  | userNotFound
  | serverError
  | ok (userId : Nat) (apiToken : String)
deriving DecidableEq, Repr

/-- AuthHandler.Refresh (part_008:111-198): read the cookie, look the token
up (401 on miss), delete-and-reject when expired (time.Now().After), load
the user, sign a new access token, delete the presented refresh-token row,
generate and store a brand-new refresh token. -/
def refresh (st : AuthState) (cookie : Option String) (now : Int) (env : RefreshEnv) :
    AuthState × RefreshResult :=
  match cookie with
  | none => (st, .noCookie)
  | some tok =>
    match dbGetRefreshToken st.tokens tok with
    | none => (st, .invalidToken)
    | some rt =>
      if rt.expiresAt < now then
        ({ st with tokens := dbDeleteRefreshToken st.tokens tok }, .expiredToken)
      else
        match st.users.find? (fun u => u.id == rt.userId) with
        | none => (st, .userNotFound)
        | some user =>
          if env.signOk = false then (st, .serverError)
          else
            let tokens1 := dbDeleteRefreshToken st.tokens tok
            if env.randOk = false then ({ st with tokens := tokens1 }, .serverError)
            else
              match dbSaveRefreshToken tokens1 user.id env.newTok env.newExpiry with
              | none => ({ st with tokens := tokens1 }, .serverError)
              | some tokens2 => ({ st with tokens := tokens2 }, .ok user.id user.apiToken)

/-- C6: rotation invalidates the presented refresh token: when the token
row exists and is unexpired (and the environment cooperates, with the
randomly generated replacement distinct from every stored token), the
first refresh succeeds and a second refresh presenting the same original
token is rejected as invalid; and an expired token is deleted from
storage on first use and the request rejected. -/
theorem C6_refresh_rotates_and_expires (st : AuthState) (tok : String) (now now2 : Int)
    (env env2 : RefreshEnv) (rt : RToken) (user : AuthUser)
    (hfind : dbGetRefreshToken st.tokens tok = some rt) :
    (¬ rt.expiresAt < now →
      st.users.find? (fun u => u.id == rt.userId) = some user →
      env.signOk = true → env.randOk = true → env.newTok ≠ tok →
      (∀ r ∈ st.tokens, r.token ≠ env.newTok) →
      (refresh st (some tok) now env).2 = .ok user.id user.apiToken ∧
      (refresh (refresh st (some tok) now env).1 (some tok) now2 env2).2 = .invalidToken) ∧
    (rt.expiresAt < now →
      (refresh st (some tok) now env).2 = .expiredToken ∧
      (refresh st (some tok) now env).1.tokens = dbDeleteRefreshToken st.tokens tok) := by
  constructor
  · intro hexp huser hsign hrand hne hfresh
    have hsave : dbSaveRefreshToken (dbDeleteRefreshToken st.tokens tok) user.id
        env.newTok env.newExpiry =
        some (dbDeleteRefreshToken st.tokens tok ++ [⟨user.id, env.newTok, env.newExpiry⟩]) := by
      unfold dbSaveRefreshToken
      rw [if_neg]
      intro hany
      rw [List.any_eq_true] at hany
      obtain ⟨r, hr, hrq⟩ := hany
      have hr2 : r ∈ st.tokens := List.mem_of_mem_filter hr
      exact hfresh r hr2 (by simpa using hrq)
    have hrun : refresh st (some tok) now env =
        ({ st with tokens := dbDeleteRefreshToken st.tokens tok ++
            [⟨user.id, env.newTok, env.newExpiry⟩] }, .ok user.id user.apiToken) := by
      simp [refresh, hfind, hexp, huser, hsign, hrand, hsave]
    have hnone : dbGetRefreshToken
        (dbDeleteRefreshToken st.tokens tok ++ [⟨user.id, env.newTok, env.newExpiry⟩]) tok =
        none := by
      unfold dbGetRefreshToken
      rw [List.find?_eq_none]
      intro r hr
      rcases List.mem_append.mp hr with hr1 | hr1
      · have := List.of_mem_filter hr1
        simpa using this
      · have : r = ⟨user.id, env.newTok, env.newExpiry⟩ := by simpa using hr1
        subst this
        simpa using hne
    rw [hrun]
    exact ⟨rfl, by simp [refresh, hnone]⟩
  · intro hexp
    constructor
    · simp [refresh, hfind, hexp]
    · simp [refresh, hfind, hexp]

/-- C6 witness: one user with one live refresh token, rotated at an instant
before expiry; the replacement token is distinct from the original. -/
theorem C6_refresh_rotates_and_expires_witness :
    dbGetRefreshToken [RToken.mk 1 "tokA" 100] "tokA" = some (RToken.mk 1 "tokA" 100) ∧
    ((¬ (RToken.mk 1 "tokA" 100).expiresAt < 50 →
      [AuthUser.mk 1 "admin" "hash" "api"].find?
        (fun u => u.id == (RToken.mk 1 "tokA" 100).userId) =
          some (AuthUser.mk 1 "admin" "hash" "api") →
      (RefreshEnv.mk true true "tokB" 200).signOk = true →
      (RefreshEnv.mk true true "tokB" 200).randOk = true →
      (RefreshEnv.mk true true "tokB" 200).newTok ≠ "tokA" →
      (∀ r ∈ [RToken.mk 1 "tokA" 100], r.token ≠ (RefreshEnv.mk true true "tokB" 200).newTok) →
      (refresh (AuthState.mk [AuthUser.mk 1 "admin" "hash" "api"] [RToken.mk 1 "tokA" 100])
          (some "tokA") 50 (RefreshEnv.mk true true "tokB" 200)).2 = .ok 1 "api" ∧
      (refresh (refresh (AuthState.mk [AuthUser.mk 1 "admin" "hash" "api"]
            [RToken.mk 1 "tokA" 100])
          (some "tokA") 50 (RefreshEnv.mk true true "tokB" 200)).1
          (some "tokA") 50 (RefreshEnv.mk true true "tokB" 200)).2 = .invalidToken) ∧
    ((RToken.mk 1 "tokA" 100).expiresAt < 50 →
      (refresh (AuthState.mk [AuthUser.mk 1 "admin" "hash" "api"] [RToken.mk 1 "tokA" 100])
          (some "tokA") 50 (RefreshEnv.mk true true "tokB" 200)).2 = .expiredToken ∧
      (refresh (AuthState.mk [AuthUser.mk 1 "admin" "hash" "api"] [RToken.mk 1 "tokA" 100])
          (some "tokA") 50 (RefreshEnv.mk true true "tokB" 200)).1.tokens =
        dbDeleteRefreshToken [RToken.mk 1 "tokA" 100] "tokA")) :=
  ⟨by decide,
    C6_refresh_rotates_and_expires
      (AuthState.mk [AuthUser.mk 1 "admin" "hash" "api"] [RToken.mk 1 "tokA" 100])
      "tokA" 50 50 (RefreshEnv.mk true true "tokB" 200) (RefreshEnv.mk true true "tokB" 200)
      (RToken.mk 1 "tokA" 100) (AuthUser.mk 1 "admin" "hash" "api") (by decide)⟩

/-! ## Deterministic API credential (auth.GenerateAPIToken, part_006:106-127)

The Go code computes HMAC-SHA256 of the password keyed by a fixed salt
string, encodes the digest with raw (unpadded) base64url, and truncates to
43 characters.  SHA-256, HMAC and the encoder are embedded in full at the
byte level (Go strings are byte sequences, modelled as lists of byte
values). -/

/-- Reduction into a 32-bit word. -/
def w32 (n : Nat) : Nat := n % 4294967296

/-- Right rotation of a 32-bit word. -/
def rotr32 (k x : Nat) : Nat :=
  w32 (Nat.lor (x >>> k) (x <<< (32 - k)))

/-- Bitwise complement of a 32-bit word. -/
def not32 (x : Nat) : Nat := Nat.xor x 4294967295

def shaCh (x y z : Nat) : Nat :=
  Nat.xor (Nat.land x y) (Nat.land (not32 x) z)

def shaMaj (x y z : Nat) : Nat :=
  Nat.xor (Nat.land x y) (Nat.xor (Nat.land x z) (Nat.land y z))

def shaBigSigma0 (x : Nat) : Nat :=
  Nat.xor (rotr32 2 x) (Nat.xor (rotr32 13 x) (rotr32 22 x))

def shaBigSigma1 (x : Nat) : Nat :=
  Nat.xor (rotr32 6 x) (Nat.xor (rotr32 11 x) (rotr32 25 x))

def shaSmallSigma0 (x : Nat) : Nat :=
  Nat.xor (rotr32 7 x) (Nat.xor (rotr32 18 x) (x >>> 3))

def shaSmallSigma1 (x : Nat) : Nat :=
  Nat.xor (rotr32 17 x) (Nat.xor (rotr32 19 x) (x >>> 10))

/-- The 64 SHA-256 round constants. -/
def shaK : List Nat :=
  [1116352408, 1899447441, 3049323471, 3921009573, 961987163, 1508970993,
   2453635748, 2870763221, 3624381080, 310598401, 607225278, 1426881987,
   1925078388, 2162078206, 2614888103, 3248222580, 3835390401, 4022224774,
   264347078, 604807628, 770255983, 1249150122, 1555081692, 1996064986,
   2554220882, 2821834349, 2952996808, 3210313671, 3336571891, 3584528711,
   113926993, 338241895, 666307205, 773529912, 1294757372, 1396182291,
   1695183700, 1986661051, 2177026350, 2456956037, 2730485921, 2820302411,
   3259730800, 3345764771, 3516065817, 3600352804, 4094571909, 275423344,
   430227734, 506948616, 659060556, 883997877, 958139571, 1322822218,
   1537002063, 1747873779, 1955562222, 2024104815, 2227730452, 2361852424,
   2428436474, 2756734187, 3204031479, 3329325298]

structure Sha8 where
  a : Nat
  b : Nat
  c : Nat
  d : Nat
  e : Nat
  f : Nat
  g : Nat
  h : Nat
deriving DecidableEq, Repr

/-- The SHA-256 initial hash state. -/
def shaInit : Sha8 :=
  ⟨1779033703, 3144134277, 1013904242, 2773480762,
   1359893119, 2600822924, 528734635, 1541459225⟩

/-- Big-endian packing of bytes into 32-bit words. -/
def bytesToWords : List Nat → List Nat
  | b1 :: b2 :: b3 :: b4 :: rest =>
    (((b1 * 256 + b2) * 256 + b3) * 256 + b4) :: bytesToWords rest
  | _ => []

/-- Message-schedule extension: append `n` further words. -/
def extendSchedule : List Nat → Nat → List Nat
  | ws, 0 => ws
  | ws, n + 1 =>
    extendSchedule (ws ++ [w32 (shaSmallSigma1 (ws.getD (ws.length - 2) 0) +
      ws.getD (ws.length - 7) 0 + shaSmallSigma0 (ws.getD (ws.length - 15) 0) +
      ws.getD (ws.length - 16) 0)]) n

/-- One SHA-256 compression round on the pair (round constant, word). -/
def compressStep (st : Sha8) (kw : Nat × Nat) : Sha8 :=
  ⟨w32 (w32 (st.h + shaBigSigma1 st.e + shaCh st.e st.f st.g + kw.1 + kw.2) +
      w32 (shaBigSigma0 st.a + shaMaj st.a st.b st.c)),
   st.a, st.b, st.c,
   w32 (st.d + w32 (st.h + shaBigSigma1 st.e + shaCh st.e st.f st.g + kw.1 + kw.2)),
   st.e, st.f, st.g⟩

/-- Compression of one 64-byte block. -/
def compressBlock (st : Sha8) (block : List Nat) : Sha8 :=
  let fin := (shaK.zip (extendSchedule (bytesToWords block) 48)).foldl compressStep st
  ⟨w32 (st.a + fin.a), w32 (st.b + fin.b), w32 (st.c + fin.c), w32 (st.d + fin.d),
   w32 (st.e + fin.e), w32 (st.f + fin.f), w32 (st.g + fin.g), w32 (st.h + fin.h)⟩

/-- Big-endian 64-bit length footer of the padding. -/
def lenBytes64 (n : Nat) : List Nat :=
  [(n >>> 56) % 256, (n >>> 48) % 256, (n >>> 40) % 256, (n >>> 32) % 256,
   (n >>> 24) % 256, (n >>> 16) % 256, (n >>> 8) % 256, n % 256]

/-- SHA-256 padding: 0x80, zeros to 56 mod 64, then the bit length. -/
def sha256pad (msg : List Nat) : List Nat :=
  msg ++ [128] ++ List.replicate ((64 - (msg.length + 9) % 64) % 64) 0 ++
    lenBytes64 (8 * msg.length)

/-- Split into 64-byte blocks. -/
def chunks64 (l : List Nat) : List (List Nat) :=
  if h : 0 < l.length then
    l.take 64 :: chunks64 (l.drop 64)
  else []
termination_by l.length
decreasing_by simp only [List.length_drop]; omega

/-- Big-endian bytes of a 32-bit word. -/
def wordBytes (x : Nat) : List Nat :=
  [(x >>> 24) % 256, (x >>> 16) % 256, (x >>> 8) % 256, x % 256]

/-- SHA-256 of a byte sequence, as crypto/sha256 computes it. -/
def sha256 (msg : List Nat) : List Nat :=
  let fin := (chunks64 (sha256pad msg)).foldl compressBlock shaInit
  wordBytes fin.a ++ wordBytes fin.b ++ wordBytes fin.c ++ wordBytes fin.d ++
  wordBytes fin.e ++ wordBytes fin.f ++ wordBytes fin.g ++ wordBytes fin.h

/-- HMAC-SHA256, as crypto/hmac computes it for a SHA-256 digest: pad or
hash the key to the 64-byte block size, then nest the two hashes over the
ipad/opad maskings. -/
def hmacSha256 (key msg : List Nat) : List Nat :=
  sha256 (((if 64 < key.length then sha256 key else key) ++
      List.replicate (64 - (if 64 < key.length then sha256 key else key).length) 0).map
        (fun b => Nat.xor b 92) ++
    sha256 (((if 64 < key.length then sha256 key else key) ++
      List.replicate (64 - (if 64 < key.length then sha256 key else key).length) 0).map
        (fun b => Nat.xor b 54) ++ msg))

/-- Character of one 6-bit group in the base64url alphabet. -/
def b64UrlChar (n : Nat) : Char :=
  if n < 26 then Char.ofNat (65 + n)
  else if n < 52 then Char.ofNat (97 + (n - 26))
  else if n < 62 then Char.ofNat (48 + (n - 52))
  else if n = 62 then Char.ofNat 45
  else Char.ofNat 95

/-- Raw (unpadded) base64url encoding, as base64.RawURLEncoding.EncodeToString. -/
def b64RawUrlEncode : List Nat → List Char
  | [] => []
  | [b1] => [b64UrlChar (b1 / 4), b64UrlChar ((b1 % 4) * 16)]
  | [b1, b2] =>
    [b64UrlChar (b1 / 4), b64UrlChar ((b1 % 4) * 16 + b2 / 16), b64UrlChar ((b2 % 16) * 4)]
  | b1 :: b2 :: b3 :: rest =>
    b64UrlChar (b1 / 4) :: b64UrlChar ((b1 % 4) * 16 + b2 / 16) ::
    b64UrlChar ((b2 % 16) * 4 + b3 / 64) :: b64UrlChar (b3 % 64) :: b64RawUrlEncode rest

/-- UTF-8 bytes of a string, as Go obtains them by converting to a byte
slice. -/
def strBytes (s : String) : List Nat :=
  s.toUTF8.toList.map (fun b => b.toNat)

/-- auth.GenerateAPIToken (part_006:106-127): HMAC-SHA256 of the password
keyed by the fixed salt "wireguard-panel-api-token-salt-v1", base64url-raw
encoded, truncated to at most 43 characters (a no-op for a 32-byte
digest).  The second argument, the JWT access secret passed by the
callers, is ignored by the Go function. -/
def generateAPIToken (password : String) (secret : String) : String :=
  if 43 < (String.mk (b64RawUrlEncode
      (hmacSha256 (strBytes "wireguard-panel-api-token-salt-v1") (strBytes password)))).length
  then String.mk ((b64RawUrlEncode
      (hmacSha256 (strBytes "wireguard-panel-api-token-salt-v1") (strBytes password))).take 43)
  else String.mk (b64RawUrlEncode
      (hmacSha256 (strBytes "wireguard-panel-api-token-salt-v1") (strBytes password)))

lemma sha256_length (msg : List Nat) : (sha256 msg).length = 32 := by
  simp [sha256, wordBytes]

lemma hmacSha256_length (key msg : List Nat) : (hmacSha256 key msg).length = 32 := by
  unfold hmacSha256
  exact sha256_length _

lemma b64RawUrlEncode_length (l : List Nat) :
    (b64RawUrlEncode l).length = (4 * l.length + 2) / 3 := by
  induction l using b64RawUrlEncode.induct with
  | case1 => simp [b64RawUrlEncode]
  | case2 b1 => simp [b64RawUrlEncode]
  | case3 b1 b2 => simp [b64RawUrlEncode]
  | case4 b1 b2 b3 rest ih =>
    rw [b64RawUrlEncode]
    simp only [List.length_cons, ih]
    omega

lemma generateAPIToken_length (password secret : String) :
    (generateAPIToken password secret).length = 43 := by
  have h1 : (b64RawUrlEncode
      (hmacSha256 (strBytes "wireguard-panel-api-token-salt-v1") (strBytes password))).length =
      43 := by
    rw [b64RawUrlEncode_length, hmacSha256_length]
  unfold generateAPIToken
  rw [if_neg]
  · show (b64RawUrlEncode _).length = 43
    exact h1
  · show ¬ 43 < (b64RawUrlEncode _).length
    omega

/-! ## Login (AuthHandler.Login, part_008:23-108) -/

structure LoginEnv where
  verifyOk : Bool
  signOk : Bool
  randOk : Bool
  newRefreshTok : String
  refreshExpiry : Int
deriving DecidableEq, Repr

inductive LoginResult where
  | invalidCredentials
  | serverError
  | ok (accessUserId : Nat) (apiToken : String)
deriving DecidableEq, Repr

/-- Self-healing credential write of Login: persist the freshly derived
API token when it differs from the stored one. -/
def loginTokenUpdate (st : AuthState) (user : AuthUser) (password secret : String) : AuthState :=
  if user.apiToken == generateAPIToken password secret then st
  else
    { st with users := st.users.map (fun u =>
        if u.id == user.id then { u with apiToken := generateAPIToken password secret } else u) }

/-- AuthHandler.Login (part_008:23-108): look the user up by username,
verify the password with bcrypt (injected as `verifyOk`), derive the
deterministic API credential and persist it when it changed, sign an
access token, generate and store a refresh token, and answer with the
access token and the API credential. -/
def login (st : AuthState) (username password secret : String) (env : LoginEnv) :
    AuthState × LoginResult :=
  match st.users.find? (fun u => u.username == username) with
  | none => (st, .invalidCredentials)
  | some user =>
    if env.verifyOk = false then (st, .invalidCredentials)
    else
      if env.signOk = false then (loginTokenUpdate st user password secret, .serverError)
      else if env.randOk = false then (loginTokenUpdate st user password secret, .serverError)
      else
        match dbSaveRefreshToken (loginTokenUpdate st user password secret).tokens user.id
            env.newRefreshTok env.refreshExpiry with
        | none => (loginTokenUpdate st user password secret, .serverError)
        | some tokens2 =>
          ({ loginTokenUpdate st user password secret with tokens := tokens2 },
            .ok user.id (generateAPIToken password secret))

lemma login_ok_token (st : AuthState) (username password secret : String) (env : LoginEnv)
    (uid : Nat) (tok : String)
    (h : (login st username password secret env).2 = .ok uid tok) :
    tok = generateAPIToken password secret := by
  unfold login at h
  split at h
  · cases h
  · split at h
    · cases h
    · split at h
      · cases h
      · split at h
        · cases h
        · split at h
          · cases h
          · exact (LoginResult.ok.inj h).2.symm

/-- C7: the API credential is a pure function of the password alone; it is
always exactly 43 characters long, derivations with different JWT secrets
(other deployments) coincide, and any two successful logins with the same
password, from any states and environments, answer with the same
43-character credential. -/
theorem C7_api_credential_deterministic (password secret secret2 : String) :
    (generateAPIToken password secret).length = 43 ∧
    generateAPIToken password secret = generateAPIToken password secret2 ∧
    (∀ st st2 username username2 env env2 uid1 uid2 tok1 tok2,
      (login st username password secret env).2 = .ok uid1 tok1 →
      (login st2 username2 password secret2 env2).2 = .ok uid2 tok2 →
      tok1 = tok2 ∧ tok1.length = 43) := by
  refine ⟨generateAPIToken_length password secret, rfl, ?_⟩
  intro st st2 username username2 env env2 uid1 uid2 tok1 tok2 h1 h2
  rw [login_ok_token st username password secret env uid1 tok1 h1,
    login_ok_token st2 username2 password secret2 env2 uid2 tok2 h2]
  exact ⟨rfl, generateAPIToken_length password secret⟩

/-! ## Settings update (SettingsHandler.UpdateSettings, part_008:283-370)

DNS, allowed-IP and logging writes are plain per-field upserts into the
settings table; the admin-password branch rehashes the password (bcrypt is
salted and environmental, injected as `hashedPassword`), rederives the
deterministic API credential, and deletes every refresh token of the
admin user. -/

structure SettingsReq where
  dns : Option String
  allowedIPs : Option String
  loggingEnabled : Option Bool
  adminPassword : Option String
deriving DecidableEq, Repr

structure SettingsState where
  auth : AuthState
  settings : List (String × String)
deriving DecidableEq, Repr

structure SettingsEnv where
  hashOk : Bool
  hashedPassword : String
deriving DecidableEq, Repr

inductive SettingsResult where
  | serverError
  | ok
deriving DecidableEq, Repr

/-- Database.SetSetting: INSERT OR UPDATE on the key. -/
def setSetting (settings : List (String × String)) (k v : String) : List (String × String) :=
  if settings.any (fun q => q.1 == k) then
    settings.map (fun q => if q.1 == k then (k, v) else q)
  else settings ++ [(k, v)]

/-- The three independent per-field writes preceding the password branch. -/
def applyPlainSettings (st : SettingsState) (req : SettingsReq) : SettingsState :=
  let st1 := match req.dns with
    | some v => { st with settings := setSetting st.settings "dns" v }
    | none => st
  let st2 := match req.allowedIPs with
    | some v => { st1 with settings := setSetting st1.settings "allowed_ips" v }
    | none => st1
  match req.loggingEnabled with
  | some b =>
    { st2 with
      settings := setSetting st2.settings "logging_enabled" (if b then "true" else "false") }
  | none => st2

/-- SettingsHandler.UpdateSettings (part_008:283-370): per-field writes,
then, for a non-empty admin password, rehash, store the new hash, store
the rederived API credential, and delete all refresh tokens of the admin
user (the delete's error is ignored by the Go code; storage deletes
cannot fail in the pure model). -/
def updateSettings (st : SettingsState) (adminUsername secret : String) (req : SettingsReq)
    (env : SettingsEnv) : SettingsState × SettingsResult :=
  match req.adminPassword with
  | none => (applyPlainSettings st req, .ok)
  | some p =>
    if p = "" then (applyPlainSettings st req, .ok)
    else if env.hashOk = false then (applyPlainSettings st req, .serverError)
    else
      match (applyPlainSettings st req).auth.users.find?
          (fun u => u.username == adminUsername) with
      | none => (applyPlainSettings st req, .serverError)
      | some user =>
        ({ auth :=
            { users := (applyPlainSettings st req).auth.users.map (fun u =>
                if u.id == user.id then
                  { u with passwordHash := env.hashedPassword,
                           apiToken := generateAPIToken p secret }
                else u),
              tokens := (applyPlainSettings st req).auth.tokens.filter
                (fun rt => !(rt.userId == user.id)) },
           settings := (applyPlainSettings st req).settings }, .ok)

lemma applyPlainSettings_auth (st : SettingsState) (req : SettingsReq) :
    (applyPlainSettings st req).auth = st.auth := by
  obtain ⟨d, a, lg, ap⟩ := req
  obtain ⟨auth, settings⟩ := st
  cases d <;> cases a <;> cases lg <;> simp [applyPlainSettings]

/-- C9: a successful admin-password change through the settings update
deletes every refresh token of the admin user, so every refresh token
stored before the change (under the storage UNIQUE(token) invariant,
expressed as Nodup) is rejected as invalid by any subsequent refresh
attempt. -/
theorem C9_password_change_revokes_refresh (st : SettingsState) (adminUsername secret : String)
    (req : SettingsReq) (env : SettingsEnv) (p : String) (user : AuthUser)
    (hp : req.adminPassword = some p) (hne : p ≠ "") (hhash : env.hashOk = true)
    (huser : st.auth.users.find? (fun u => u.username == adminUsername) = some user)
    (hnodup : (st.auth.tokens.map (fun rt => rt.token)).Nodup) :
    (updateSettings st adminUsername secret req env).2 = .ok ∧
    (∀ rt ∈ (updateSettings st adminUsername secret req env).1.auth.tokens,
      rt.userId ≠ user.id) ∧
    (∀ rt ∈ st.auth.tokens, rt.userId = user.id → ∀ now env2,
      (refresh (updateSettings st adminUsername secret req env).1.auth
        (some rt.token) now env2).2 = .invalidToken) := by
  have hauth := applyPlainSettings_auth st req
  have huser3 : (applyPlainSettings st req).auth.users.find?
      (fun u => u.username == adminUsername) = some user := by rw [hauth]; exact huser
  have hrun : updateSettings st adminUsername secret req env =
      ({ auth :=
          { users := (applyPlainSettings st req).auth.users.map (fun u =>
              if u.id == user.id then
                { u with passwordHash := env.hashedPassword,
                         apiToken := generateAPIToken p secret }
              else u),
            tokens := (applyPlainSettings st req).auth.tokens.filter
              (fun rt => !(rt.userId == user.id)) },
         settings := (applyPlainSettings st req).settings }, .ok) := by
    simp [updateSettings, hp, hne, hhash, huser3]
  rw [hrun]
  have htok : ∀ rt ∈ ((applyPlainSettings st req).auth.tokens.filter
      (fun rt => !(rt.userId == user.id))), rt.userId ≠ user.id := by
    intro rt hrt
    have := List.of_mem_filter hrt
    simpa using this
  refine ⟨rfl, htok, ?_⟩
  intro rt hrt hrtu now env2
  have hnone : dbGetRefreshToken ((applyPlainSettings st req).auth.tokens.filter
      (fun r => !(r.userId == user.id))) rt.token = none := by
    unfold dbGetRefreshToken
    rw [List.find?_eq_none]
    intro r hr hbeq
    have hrmem : r ∈ st.auth.tokens := by
      have := List.mem_of_mem_filter hr
      rwa [hauth] at this
    have hrne : r.userId ≠ user.id := htok r hr
    have hreq2 : r.token = rt.token := by simpa using hbeq
    have : r = rt :=
      List.inj_on_of_nodup_map hnodup hrmem hrt hreq2
    rw [this] at hrne
    exact hrne hrtu
  simp [refresh, hnone]

/-- C9 witness: one admin user with one live refresh token; changing the
password deletes it, and refreshing with it afterwards is rejected. -/
theorem C9_password_change_revokes_refresh_witness :
    (SettingsReq.mk none none none (some "newpw")).adminPassword = some "newpw" ∧
    "newpw" ≠ "" ∧
    (SettingsEnv.mk true "newhash").hashOk = true ∧
    ([AuthUser.mk 1 "admin" "oldhash" "oldapi"].find? (fun u => u.username == "admin") =
      some (AuthUser.mk 1 "admin" "oldhash" "oldapi")) ∧
    (([RToken.mk 1 "tokA" 100].map (fun rt => rt.token)).Nodup) ∧
    ((updateSettings
        (SettingsState.mk (AuthState.mk [AuthUser.mk 1 "admin" "oldhash" "oldapi"]
          [RToken.mk 1 "tokA" 100]) [])
        "admin" "secret" (SettingsReq.mk none none none (some "newpw"))
        (SettingsEnv.mk true "newhash")).2 = .ok ∧
      (∀ rt ∈ (updateSettings
        (SettingsState.mk (AuthState.mk [AuthUser.mk 1 "admin" "oldhash" "oldapi"]
          [RToken.mk 1 "tokA" 100]) [])
        "admin" "secret" (SettingsReq.mk none none none (some "newpw"))
        (SettingsEnv.mk true "newhash")).1.auth.tokens,
        rt.userId ≠ (AuthUser.mk 1 "admin" "oldhash" "oldapi").id) ∧
      (∀ rt ∈ [RToken.mk 1 "tokA" 100], rt.userId = (AuthUser.mk 1 "admin" "oldhash" "oldapi").id →
        ∀ now env2,
        (refresh (updateSettings
          (SettingsState.mk (AuthState.mk [AuthUser.mk 1 "admin" "oldhash" "oldapi"]
            [RToken.mk 1 "tokA" 100]) [])
          "admin" "secret" (SettingsReq.mk none none none (some "newpw"))
          (SettingsEnv.mk true "newhash")).1.auth
          (some rt.token) now env2).2 = .invalidToken)) :=
  ⟨rfl, by decide, rfl, by decide, by decide,
    C9_password_change_revokes_refresh
      (SettingsState.mk (AuthState.mk [AuthUser.mk 1 "admin" "oldhash" "oldapi"]
        [RToken.mk 1 "tokA" 100]) [])
      "admin" "secret" (SettingsReq.mk none none none (some "newpw"))
      (SettingsEnv.mk true "newhash") "newpw" (AuthUser.mk 1 "admin" "oldhash" "oldapi")
      rfl (by decide) rfl (by decide) (by decide)⟩

/-! ## Login rate limiter (middleware.NewRateLimiter / Middleware, part_009:87-160)

Modelled from the spec: the limiter is "a per-source-address token bucket"
(spec section 5), realised by the vendored golang.org/x/time/rate Limiter
whose source is not part of this repository.  Its token-bucket semantics
are embedded over exact rationals: NewRateLimiter(requests, windowSeconds)
configures rate = requests/windowSeconds tokens per second with burst =
requests; the per-source bucket starts full; each Allow advances the
token count by rate times the elapsed time, capped at the burst, admits
the request iff at least one token is then available and consumes it, and
leaves the limiter state untouched on denial. -/

structure Bucket where
  tokens : ℚ
  last : ℚ
deriving DecidableEq

/-- A freshly created per-source limiter: a full bucket. -/
def newBucket (burst : ℚ) (now : ℚ) : Bucket := ⟨burst, now⟩

/-- Token count capped at the burst, as the library writes it:
if burst < tokens, tokens = burst. -/
def capAt (burst tk : ℚ) : ℚ :=
  if burst < tk then burst else tk

/-- One Allow call at time `now`. -/
def bucketAllow (r burst : ℚ) (b : Bucket) (now : ℚ) : Bool × Bucket :=
  if 1 ≤ capAt burst (b.tokens + (now - b.last) * r) then
    (true, ⟨capAt burst (b.tokens + (now - b.last) * r) - 1, now⟩)
  else (false, b)

lemma capAt_le_left (burst tk : ℚ) : capAt burst tk ≤ burst := by
  unfold capAt
  split
  · exact le_refl burst
  · exact le_of_not_lt (by assumption)

lemma capAt_le_right (burst tk : ℚ) : capAt burst tk ≤ tk := by
  unfold capAt
  split
  · exact le_of_lt (by assumption)
  · exact le_refl tk

lemma le_capAt (burst tk x : ℚ) (h1 : x ≤ burst) (h2 : x ≤ tk) : x ≤ capAt burst tk := by
  unfold capAt
  split
  · exact h1
  · exact h2

lemma capAt_eq_left (burst tk : ℚ) (h : burst ≤ tk) : capAt burst tk = burst := by
  unfold capAt
  split
  · rfl
  · exact le_antisymm (le_of_not_lt (by assumption)) h

/-- A sequence of Allow calls from one source. -/
def bucketRun (r burst : ℚ) (b : Bucket) : List ℚ → List Bool × Bucket
  | [] => ([], b)
  | t :: ts =>
    ((bucketAllow r burst b t).1 ::
        (bucketRun r burst (bucketAllow r burst b t).2 ts).1,
      (bucketRun r burst (bucketAllow r burst b t).2 ts).2)

/-- The login limiter as configured by NewRateLimiter(requests,
windowSeconds) and driven by Middleware for one source address: the
admission decision for each request time in order. -/
def rateLimiterRun (requests windowSeconds : Nat) (t0 : ℚ) (times : List ℚ) : List Bool :=
  (bucketRun ((requests : ℚ) / (windowSeconds : ℚ)) (requests : ℚ)
    (newBucket (requests : ℚ) t0) times).1

lemma bucketRun_append (r burst : ℚ) (ts1 ts2 : List ℚ) (b : Bucket) :
    bucketRun r burst b (ts1 ++ ts2) =
      ((bucketRun r burst b ts1).1 ++ (bucketRun r burst (bucketRun r burst b ts1).2 ts2).1,
        (bucketRun r burst (bucketRun r burst b ts1).2 ts2).2) := by
  induction ts1 generalizing b with
  | nil => simp [bucketRun]
  | cons t ts ih => simp [bucketRun, ih]

/-- While at least as many tokens as attempts remain, every attempt in an
ascending sequence is admitted, the bucket stays below the burst, and the
potential tokens + elapsed-regeneration falls by one per admission. -/
lemma bucketRun_admits (r : ℚ) (hr : 0 ≤ r) (burst : ℚ) :
    ∀ (ts : List ℚ) (b : Bucket),
      (ts.length : ℚ) ≤ b.tokens → b.tokens ≤ burst →
      List.Chain' (fun x y => x ≤ y) (b.last :: ts) →
      (bucketRun r burst b ts).1 = List.replicate ts.length true ∧
      (bucketRun r burst b ts).2.tokens ≤ burst ∧
      ∀ T, (bucketRun r burst b ts).2.tokens + (T - (bucketRun r burst b ts).2.last) * r ≤
        b.tokens + (T - b.last) * r - ts.length := by
  intro ts
  induction ts with
  | nil =>
    intro b _ hb _
    refine ⟨rfl, hb, fun T => ?_⟩
    simp [bucketRun]
  | cons t ts ih =>
    intro b hlen hburst hchain
    have hlast : b.last ≤ t := (List.chain'_cons.mp hchain).1
    have hchain2 : List.Chain' (fun x y => x ≤ y) (t :: ts) := (List.chain'_cons.mp hchain).2
    have hlen1 : (ts.length : ℚ) + 1 ≤ b.tokens := by
      have : ((t :: ts).length : ℚ) = (ts.length : ℚ) + 1 := by push_cast [List.length_cons]; ring
      rw [this] at hlen
      exact hlen
    have htslen : (0 : ℚ) ≤ (ts.length : ℚ) := Nat.cast_nonneg _
    have hadv : b.tokens ≤ capAt burst (b.tokens + (t - b.last) * r) := by
      refine le_capAt _ _ _ hburst ?_
      have : 0 ≤ (t - b.last) * r := mul_nonneg (by linarith) hr
      linarith
    have hmr : capAt burst (b.tokens + (t - b.last) * r) ≤ b.tokens + (t - b.last) * r :=
      capAt_le_right _ _
    have hallow : bucketAllow r burst b t =
        (true, ⟨capAt burst (b.tokens + (t - b.last) * r) - 1, t⟩) := by
      unfold bucketAllow
      rw [if_pos (by linarith)]
    have h1 : (ts.length : ℚ) ≤ capAt burst (b.tokens + (t - b.last) * r) - 1 := by linarith
    have h2 : capAt burst (b.tokens + (t - b.last) * r) - 1 ≤ burst := by
      have := capAt_le_left burst (b.tokens + (t - b.last) * r)
      linarith
    obtain ⟨ih1, ih2, ih3⟩ := ih ⟨capAt burst (b.tokens + (t - b.last) * r) - 1, t⟩ h1 h2 hchain2
    have hrun : bucketRun r burst b (t :: ts) =
        (true :: (bucketRun r burst ⟨capAt burst (b.tokens + (t - b.last) * r) - 1, t⟩ ts).1,
          (bucketRun r burst ⟨capAt burst (b.tokens + (t - b.last) * r) - 1, t⟩ ts).2) := by
      rw [bucketRun, hallow]
    refine ⟨?_, ?_, ?_⟩
    · rw [hrun]
      simp [ih1, List.replicate_succ]
    · rw [hrun]
      exact ih2
    · intro T
      rw [hrun]
      have hstep := ih3 T
      have hring : (T - t) * r + (t - b.last) * r = (T - b.last) * r := by ring
      have hcast : (((t :: ts).length : ℕ) : ℚ) = (ts.length : ℚ) + 1 := by
        push_cast [List.length_cons]; ring
      rw [hcast]
      simp only at hstep
      linarith

/-- C8 counterexample: with the limiter configured for 5 requests per 60
seconds, five attempts at time 0 are admitted and a sixth attempt 30
seconds later, well inside the 60-second window, is also admitted, because
the bucket has regenerated 2.5 tokens by then; the claim that any 6th
attempt within the window is rejected is false. -/
theorem C8_sixth_in_window_admitted :
    rateLimiterRun 5 60 0 [0, 0, 0, 0, 0, 30] =
      [true, true, true, true, true, true] := by
  norm_num [rateLimiterRun, bucketRun, bucketAllow, newBucket, capAt]

/-- C8 as amended: with the limiter configured for 5 requests per 60
seconds, five ascending login attempts are all admitted and a 6th attempt
is rejected provided it comes less than 12 seconds (one token
regeneration period at 5 per 60 seconds) after the first attempt; later
6th attempts inside the 60-second window may be admitted as the bucket
refills. -/
theorem C8_sixth_rejected_within_regen (t0 t1 t2 t3 t4 t5 t6 : ℚ)
    (h01 : t0 ≤ t1) (h12 : t1 ≤ t2) (h23 : t2 ≤ t3) (h34 : t3 ≤ t4)
    (h45 : t4 ≤ t5) (h56 : t5 ≤ t6) (hwin : t6 - t1 < 12) :
    rateLimiterRun 5 60 t0 [t1, t2, t3, t4, t5, t6] =
      [true, true, true, true, true, false] := by
  have hr : (0 : ℚ) ≤ (5 : ℚ) / 60 := by norm_num
  have hfirst : bucketAllow ((5 : ℚ) / 60) 5 (newBucket 5 t0) t1 = (true, ⟨4, t1⟩) := by
    have hmin : capAt (5 : ℚ) ((5 : ℚ) + (t1 - t0) * ((5 : ℚ) / 60)) = 5 := by
      have : 0 ≤ (t1 - t0) * ((5 : ℚ) / 60) := mul_nonneg (by linarith) hr
      apply capAt_eq_left
      linarith
    unfold bucketAllow newBucket
    simp only
    rw [hmin, if_pos (by norm_num)]
    norm_num
  have hchain : List.Chain' (fun x y => x ≤ y) ((Bucket.mk 4 t1).last :: [t2, t3, t4, t5]) := by
    simp only [List.chain'_cons, List.chain'_singleton, and_true]
    exact ⟨h12, h23, h34, h45⟩
  obtain ⟨hl, _, hpot⟩ := bucketRun_admits ((5 : ℚ) / 60) hr 5 [t2, t3, t4, t5]
    ⟨4, t1⟩ (by norm_num) (by norm_num) hchain
  have hpot6 := hpot t6
  simp only [List.length_cons, List.length_nil] at hpot6
  have hregen : (t6 - t1) * ((5 : ℚ) / 60) < 1 := by
    have h1 : (t6 - t1) * ((5 : ℚ) / 60) < 12 * ((5 : ℚ) / 60) := by
      apply mul_lt_mul_of_pos_right _ (by norm_num)
      linarith
    have h2 : (12 : ℚ) * ((5 : ℚ) / 60) = 1 := by norm_num
    linarith
  set s5 := (bucketRun ((5 : ℚ) / 60) 5 ⟨4, t1⟩ [t2, t3, t4, t5]).2 with hs5
  have hsixth : (bucketAllow ((5 : ℚ) / 60) 5 s5 t6).1 = false := by
    have hneg : ¬ (1 : ℚ) ≤ capAt 5 (s5.tokens + (t6 - s5.last) * ((5 : ℚ) / 60)) := by
      intro habs
      have hm := capAt_le_right (5 : ℚ) (s5.tokens + (t6 - s5.last) * ((5 : ℚ) / 60))
      have hb : s5.tokens + (t6 - s5.last) * ((5 : ℚ) / 60) ≤
          4 + (t6 - t1) * ((5 : ℚ) / 60) - ((4 : ℕ) : ℚ) := by
        push_cast
        push_cast at hpot6
        linarith
      push_cast at hb
      linarith
    unfold bucketAllow
    rw [if_neg hneg]
  have hsplit : [t2, t3, t4, t5, t6] = [t2, t3, t4, t5] ++ [t6] := by rfl
  unfold rateLimiterRun
  have hcast5 : ((5 : ℕ) : ℚ) = 5 := by norm_num
  have hcast60 : ((60 : ℕ) : ℚ) = 60 := by norm_num
  rw [hcast5, hcast60]
  rw [show [t1, t2, t3, t4, t5, t6] = t1 :: ([t2, t3, t4, t5] ++ [t6]) from rfl]
  rw [bucketRun, hfirst]
  simp only
  rw [bucketRun_append]
  rw [hl]
  rw [show (bucketRun ((5 : ℚ) / 60) 5 s5 [t6]) =
      ((bucketAllow ((5 : ℚ) / 60) 5 s5 t6).1 ::
        (bucketRun ((5 : ℚ) / 60) 5 (bucketAllow ((5 : ℚ) / 60) 5 s5 t6).2 []).1,
        (bucketRun ((5 : ℚ) / 60) 5 (bucketAllow ((5 : ℚ) / 60) 5 s5 t6).2 []).2) from rfl]
  rw [hsixth]
  simp [bucketRun]

/-- C8 witness: six immediate attempts; the 6th is rejected. -/
theorem C8_sixth_rejected_within_regen_witness :
    (0 : ℚ) ≤ 0 ∧ (0 : ℚ) - 0 < 12 ∧
    rateLimiterRun 5 60 0 [0, 0, 0, 0, 0, 0] =
      [true, true, true, true, true, false] :=
  ⟨le_refl 0, by norm_num,
    C8_sixth_rejected_within_regen 0 0 0 0 0 0 0 (le_refl 0) (le_refl 0) (le_refl 0)
      (le_refl 0) (le_refl 0) (le_refl 0) (by norm_num)⟩

end WGPanel
